import Mathlib

/-!
Shallow embedding of `flask_restless/manager.py` (the endpoint synthesis and
naming engine of Flask-Restless): the `APIManager._next_blueprint_name`
allocator, the verb partitioning and URL-rule construction performed by
`APIManager.create_api_blueprint`, and the registering wrapper
`APIManager.create_api`.

Modelling conventions:
- Python strings are Lean `String`s (lists of characters; the names involved
  are ASCII).
- Python `frozenset` of HTTP method names is `Finset String`.
- `app.blueprints` (the name registry, a dict keyed by blueprint name) is a
  `List String` of the registered names, threaded explicitly; methods that
  may touch it return the (possibly updated) registry alongside their result.
- Python exceptions (`IllegalArgumentError` raised by the authentication
  precondition check, `ValueError` raised by `int()` on a malformed suffix or
  by `str.partition` on an empty separator) become an `Except` error value.
- The opaque view objects (`API.as_view`, `FunctionAPI.as_view`, and the
  related-collection views) are modelled as a tagged handler reference, since
  the claims only distinguish which kind of handler a URL rule is bound to.
- `_get_onetomany_relations(model)` lives in `views.py`, which is not part of
  the sources; following the specification, the one-to-many relation names
  are taken as a declared ordered list on the configuration (the
  `ResourceDescriptor.oneToManyRelations` field of the spec).
-/

/-- Whitespace test matching what Python `int()` strips from the ends of its
argument (ASCII whitespace). -/
def isSpace (c : Char) : Bool :=
  c = ' ' || c = '\t' || c = '\n' || c = '\x0d' || c = '\x0b' || c = '\x0c'

/-- Value of a decimal digit character, `none` on any other character. -/
def digitVal? (c : Char) : Option Nat :=
  if 48 ≤ c.toNat ∧ c.toNat ≤ 57 then some (c.toNat - 48) else none

/-- Accumulating decimal evaluation of a digit string; `none` as soon as a
non-digit character is met. -/
def digitsValAux : List Char → Nat → Option Nat
  | [], acc => some acc
  | c :: cs, acc =>
    match digitVal? c with
    | some d => digitsValAux cs (acc * 10 + d)
    | none => none

/-- Value of a non-empty all-digit character list, `none` otherwise. -/
def digitsVal (l : List Char) : Option Nat :=
  if l.isEmpty then none else digitsValAux l 0

/-- Sign handling of Python `int()` after whitespace stripping: an optional
single leading `+` or `-` followed by a non-empty digit string. -/
def pyIntCore (l : List Char) : Option Int :=
  match l with
  | [] => none
  | c :: rest =>
    if c = '-' then (digitsVal rest).map (fun n => -(n : Int))
    else if c = '+' then (digitsVal rest).map (fun n => (n : Int))
    else (digitsVal (c :: rest)).map (fun n => (n : Int))

/-- Strips whitespace from both ends of a character list. -/
def pyStrip (l : List Char) : List Char :=
  ((l.dropWhile isSpace).reverse.dropWhile isSpace).reverse

/-- Python `int(s)` for a base-10 string `s` (over ASCII): strip whitespace,
optional sign, non-empty digit string; `none` models `ValueError`. -/
def pyIntChars (l : List Char) : Option Int :=
  pyIntCore (pyStrip l)

/-- Python `int(s)` on a Lean `String`. -/
def pyInt (s : String) : Option Int :=
  pyIntChars s.data

/-- The decimal digit character for a value below ten. -/
def digitChar (d : Nat) : Char :=
  match d with
  | 0 => '0' | 1 => '1' | 2 => '2' | 3 => '3' | 4 => '4'
  | 5 => '5' | 6 => '6' | 7 => '7' | 8 => '8' | _ => '9'

/-- Fuel-driven decimal expansion; the fuel only serves structural
termination and any amount at least `n + 1` yields the digits of `n`, most
significant first. -/
def natToDigitsAux (fuel n : Nat) : List Char :=
  match fuel with
  | 0 => []
  | Nat.succ fuel =>
    if n < 10 then [digitChar n]
    else natToDigitsAux fuel (n / 10) ++ [digitChar (n % 10)]

/-- Decimal digit expansion of a natural number, most significant digit
first, as produced by Python `str(n)` for `n ≥ 0`. -/
def natToDigits (n : Nat) : List Char :=
  natToDigitsAux (n + 1) n

/-- Python `str(i)` for an integer `i`. -/
def pyStrInt (i : Int) : String :=
  if i < 0 then ⟨'-' :: natToDigits i.natAbs⟩ else ⟨natToDigits i.toNat⟩

/-- Python `str.upper()` over ASCII strings. -/
def pyUpper (s : String) : String :=
  ⟨s.data.map Char.toUpper⟩

/-- Python `n.startswith(b)`. -/
def startswith (b n : String) : Bool :=
  b.data.isPrefixOf n.data

/-- Python `max` over a list of integers; the empty case is never reached by
the allocator, which guards with an emptiness test exactly as the source
guards `max` with `if not existing`. -/
def listMax : List Int → Int
  | [] => 0
  | x :: xs => xs.foldl max x

/-- Errors raised synchronously by the manager: `IllegalArgumentError` (the
class defined in `manager.py`, raised by the authentication precondition
check) and `ValueError` (raised by `int()` on a malformed blueprint-name
suffix; the NamingError of the specification). -/
inductive ManagerError where
  | illegalArgumentError (msg : String)
  | valueError
deriving DecidableEq

/-- Equality of `Except` results is decidable when both components are. -/
instance exceptDecEq {ε α : Type} [DecidableEq ε] [DecidableEq α] :
    DecidableEq (Except ε α)
  | .error e, .error f =>
    if h : e = f then isTrue (by rw [h])
    else isFalse (fun hh => h (by cases hh; rfl))
  | .error _, .ok _ => isFalse (fun hh => by cases hh)
  | .ok _, .error _ => isFalse (fun hh => by cases hh)
  | .ok a, .ok b =>
    if h : a = b then isTrue (by rw [h])
    else isFalse (fun hh => h (by cases hh; rfl))

/-- The message of the authentication precondition error in
`create_api_blueprint`. -/
def authentication_error_msg : String :=
  "If authentication_required is specified, so must authentication_function."

/-- Python `int(n.partition(basename)[-1])` for a name `n` that passed the
`n.startswith(basename)` filter: the first occurrence of `basename` in `n`
is then at index zero, so the remainder after the partition is `n` with the
first `len(basename)` characters dropped. Python `str.partition` raises
`ValueError` on an empty separator, hence the emptiness guard. -/
def parse_suffix (basename n : String) : Option Int :=
  if basename.data.isEmpty then none
  else pyIntChars (n.data.drop basename.data.length)

/-- The list comprehension `[int(n.partition(basename)[-1]) for n in
existing]`: all suffixes parse, or the whole computation fails (Python
raises `ValueError` at the first failure; failures are not otherwise
observable, so collecting them as one `none` is faithful). -/
def parseAll (basename : String) : List String → Option (List Int)
  | [] => some []
  | n :: rest =>
    match parse_suffix basename n, parseAll basename rest with
    | some v, some vs => some (v :: vs)
    | _, _ => none

/-- `APIManager._next_blueprint_name`: scan the registry for names starting
with `basename`; if none, the suffix is 0; otherwise one plus the maximum of
the parsed integer suffixes. The result is `basename` followed by the
decimal suffix (`BLUEPRINTNAME_FORMAT`). -/
def _next_blueprint_name (basename : String) (registry : List String) :
    Except ManagerError String :=
  match registry.filter (fun n => startswith basename n) with
  | [] => .ok (basename ++ pyStrInt 0)
  | e :: es =>
    match parseAll basename (e :: es) with
    | none => .error .valueError
    | some nums => .ok (basename ++ pyStrInt (listMax nums + 1))

/-- Which identifier converter, if any, a URL pattern binds. -/
inductive IdKind where
  | none
  | int
  | string
deriving DecidableEq

/-- Tagged reference to the handler capability a URL rule is bound to: the
per-resource CRUD view (`API.as_view`), a related-collection view
(`_related_collection(api_view, relname)`), or the function-evaluation view
(`FunctionAPI.as_view`). -/
inductive HandlerRef where
  | crud
  | relation (relname : String)
  | functionEval
deriving DecidableEq

/-- One `add_url_rule` call on the blueprint: the URL pattern, the set of
HTTP methods, the bound handler, and the identifier converter the pattern
uses. -/
structure RouteEntry where
  pathPattern : String
  verbs : Finset String
  handlerRef : HandlerRef
  identifierKind : IdKind
deriving DecidableEq

/-- The blueprint returned by `create_api_blueprint`: its name, its URL
prefix, and its URL rules in the order they were added. -/
structure Blueprint where
  name : String
  urlPrefix : String
  rules : List RouteEntry
deriving DecidableEq

/-- `methods & frozenset(('POST',))`. -/
def no_instance_methods (methods : Finset String) : Finset String :=
  methods ∩ {"POST"}

/-- `methods & frozenset(('GET', 'PATCH', 'PUT'))` when `allow_patch_many`,
otherwise `methods & frozenset(('GET',))`. -/
def possibly_empty_instance_methods (methods : Finset String)
    (allow_patch_many : Bool) : Finset String :=
  if allow_patch_many then methods ∩ {"GET", "PATCH", "PUT"}
  else methods ∩ {"GET"}

/-- `methods & frozenset(('GET', 'PATCH', 'DELETE', 'PUT'))`. -/
def instance_methods (methods : Finset String) : Finset String :=
  methods ∩ {"GET", "PATCH", "DELETE", "PUT"}

/-- The two GET-only sub-collection rules added for one relation name: the
pattern is `'%s/<%s:instid>/%s/' % (collection_endpoint, converter,
relname)` for the converters `int` and `string`, in that order. -/
def relation_rules (collection_endpoint relname : String) : List RouteEntry :=
  [⟨collection_endpoint ++ "/<int:instid>/" ++ relname ++ "/",
    {"GET"}, .relation relname, .int⟩,
   ⟨collection_endpoint ++ "/<string:instid>/" ++ relname ++ "/",
    {"GET"}, .relation relname, .string⟩]

/-- All related-collection rules in declared relation order. -/
def relation_entries (collection_endpoint : String) (relations : List String) :
    List RouteEntry :=
  relations.flatMap (fun relname => relation_rules collection_endpoint relname)

/-- The function-evaluation rule added when `allow_functions` is set: GET
only, at `'/eval' + collection_endpoint`, bound to the `FunctionAPI` view. -/
def eval_entry (collection_endpoint : String) : RouteEntry :=
  ⟨"/eval" ++ collection_endpoint, {"GET"}, .functionEval, .none⟩

/-- The sequence of `add_url_rule` calls of `create_api_blueprint`, in
source order: the collection rule for `no_instance_methods`, the
defaulted-identifier collection rule for `possibly_empty_instance_methods`,
the `int` and `string` instance rules for `instance_methods`, the
related-collection rules, and finally the optional function-evaluation
rule. Every one of the first four calls is made unconditionally. -/
def buildRules (collection_endpoint : String) (methods : Finset String)
    (allow_patch_many allow_functions : Bool) (relations : List String) :
    List RouteEntry :=
  [⟨collection_endpoint, no_instance_methods methods, .crud, .none⟩,
   ⟨collection_endpoint, possibly_empty_instance_methods methods
      allow_patch_many, .crud, .none⟩,
   ⟨collection_endpoint ++ "/<int:instid>", instance_methods methods,
      .crud, .int⟩,
   ⟨collection_endpoint ++ "/<string:instid>", instance_methods methods,
      .crud, .string⟩]
  ++ relation_entries collection_endpoint relations
  ++ (if allow_functions then [eval_entry collection_endpoint] else [])

/-- The arguments of `create_api_blueprint` that the claims depend on.
`collection_name` is taken already resolved (the source defaults it to
`model.__tablename__`; the model object is opaque here).
`authentication_required_for` is the list of verbs requiring
authentication (`None` and the empty list coincide, both being falsy in the
source's truthiness test); `authentication_function` records whether a
decision callback was supplied. `relations` is the declared ordered list of
one-to-many relation names of the model (see the module comment). -/
structure ApiConfig where
  collection_name : String
  methods : List String
  urlPrefix : String
  allow_patch_many : Bool
  allow_functions : Bool
  authentication_required_for : List String
  authentication_function : Bool
  relations : List String
deriving DecidableEq

/-- `APIManager.create_api_blueprint`: check the authentication
precondition, normalize the methods to upper case, partition them, compute
the blueprint name from the registry, and add the URL rules. The registry
(`app.blueprints`) is only read, never written, by this method; it is
returned unchanged alongside the result. -/
def create_api_blueprint (cfg : ApiConfig) (registry : List String) :
    Except ManagerError Blueprint × List String :=
  if ¬ cfg.authentication_required_for.isEmpty ∧
      cfg.authentication_function = false then
    (.error (.illegalArgumentError authentication_error_msg), registry)
  else
    match _next_blueprint_name (cfg.collection_name ++ "api") registry with
    | .error e => (.error e, registry)
    | .ok blueprintname =>
      (.ok ⟨blueprintname, cfg.urlPrefix,
            buildRules ("/" ++ cfg.collection_name)
              ((cfg.methods.map pyUpper).toFinset) cfg.allow_patch_many
              cfg.allow_functions cfg.relations⟩,
       registry)

/-- `Flask.register_blueprint`, as far as the name registry is concerned:
the blueprint's name is recorded in `app.blueprints`. -/
def register_blueprint (bp : Blueprint) (registry : List String) :
    List String :=
  bp.name :: registry

/-- `APIManager.create_api`: create the blueprint, then register it on the
application (which records its name in the registry). -/
def create_api (cfg : ApiConfig) (registry : List String) :
    Except ManagerError Unit × List String :=
  match create_api_blueprint cfg registry with
  | (.error e, r) => (.error e, r)
  | (.ok bp, r) => (.ok (), register_blueprint bp r)

/-- N successive allocations for one base name, each immediately followed by
registration of the returned name (the claim C9 iteration). -/
def iterate_allocate (basename : String) : Nat → List String →
    Except ManagerError (List String)
  | 0, registry => .ok registry
  | Nat.succ k, registry =>
    match _next_blueprint_name basename registry with
    | .error e => .error e
    | .ok name => iterate_allocate basename k (name :: registry)

/-- The names `basename ++ str(i)` for `i < N`, most recent first (the order
in which `iterate_allocate` stacks them onto the registry). -/
def new_names (basename : String) (N : Nat) : List String :=
  (List.range N).reverse.map (fun i => basename ++ pyStrInt (Int.ofNat i))

/-- The rules of a blueprint-creation result (empty on error). -/
def rulesOf : Except ManagerError Blueprint → List RouteEntry
  | .ok bp => bp.rules
  | .error _ => []

/-- Recognizes the related-collection handler references. -/
def is_relation_handler : HandlerRef → Bool
  | .relation _ => true
  | _ => false

theorem digitChar_spec (d : Nat) (hd : d < 10) :
    digitVal? (digitChar d) = some d ∧ isSpace (digitChar d) = false ∧
      digitChar d ≠ '-' ∧ digitChar d ≠ '+' := by
  interval_cases d <;> decide

theorem natToDigitsAux_ne_nil (fuel : Nat) :
    ∀ n, n < fuel → natToDigitsAux fuel n ≠ [] := by
  induction fuel with
  | zero => intro n h; omega
  | succ fuel _ih =>
    intro n _h
    simp only [natToDigitsAux]
    split <;> simp

theorem natToDigitsAux_mem (fuel : Nat) :
    ∀ n c, n < fuel → c ∈ natToDigitsAux fuel n →
      ∃ d, d < 10 ∧ c = digitChar d := by
  induction fuel with
  | zero => intro n c h; omega
  | succ fuel ih =>
    intro n c h hc
    simp only [natToDigitsAux] at hc
    split at hc
    · next h10 =>
      simp only [List.mem_singleton] at hc
      exact ⟨n, h10, hc⟩
    · next h10 =>
      rcases List.mem_append.mp hc with hc | hc
      · exact ih (n / 10) c (by omega) hc
      · simp only [List.mem_singleton] at hc
        exact ⟨n % 10, Nat.mod_lt _ (by omega), hc⟩

theorem digitsValAux_append (l₁ l₂ : List Char) (acc : Nat) :
    digitsValAux (l₁ ++ l₂) acc =
      match digitsValAux l₁ acc with
      | some a => digitsValAux l₂ a
      | none => none := by
  induction l₁ generalizing acc with
  | nil => rfl
  | cons c cs ih =>
    simp only [List.cons_append, digitsValAux]
    cases digitVal? c with
    | none => rfl
    | some d => exact ih (acc * 10 + d)

theorem natToDigitsAux_val (fuel : Nat) :
    ∀ n acc, n < fuel →
      digitsValAux (natToDigitsAux fuel n) acc =
        some (acc * 10 ^ (natToDigitsAux fuel n).length + n) := by
  induction fuel with
  | zero => intro n acc h; omega
  | succ fuel ih =>
    intro n acc h
    simp only [natToDigitsAux]
    split
    · next h10 =>
      have hd := (digitChar_spec n h10).1
      simp [digitsValAux, hd]
    · next h10 =>
      have hd := (digitChar_spec (n % 10) (Nat.mod_lt _ (by omega))).1
      rw [digitsValAux_append]
      rw [ih (n / 10) acc (by omega)]
      simp only [digitsValAux, hd, List.length_append, List.length_singleton]
      rw [pow_succ]
      congr 1
      have hdm := Nat.div_add_mod n 10
      ring_nf
      omega

theorem digitsVal_natToDigits (n : Nat) :
    digitsVal (natToDigits n) = some n := by
  have hne := natToDigitsAux_ne_nil (n + 1) n (by omega)
  have hval := natToDigitsAux_val (n + 1) n 0 (by omega)
  unfold digitsVal natToDigits
  rw [if_neg (by simpa [List.isEmpty_iff] using hne)]
  rw [hval]
  simp

theorem natToDigits_mem {n : Nat} {c : Char} (h : c ∈ natToDigits n) :
    ∃ d, d < 10 ∧ c = digitChar d :=
  natToDigitsAux_mem (n + 1) n c (by omega) h

theorem dropWhile_eq_self_of_all {l : List Char} {p : Char → Bool}
    (h : ∀ c ∈ l, p c = false) : l.dropWhile p = l := by
  cases l with
  | nil => rfl
  | cons c cs =>
    rw [List.dropWhile_cons, h c (List.mem_cons_self c cs)]
    simp

theorem pyStrip_eq_self {l : List Char}
    (h : ∀ c ∈ l, isSpace c = false) : pyStrip l = l := by
  unfold pyStrip
  rw [dropWhile_eq_self_of_all h]
  rw [dropWhile_eq_self_of_all (by intro c hc; exact h c (List.mem_reverse.mp hc))]
  exact List.reverse_reverse l

theorem natToDigits_not_space {n : Nat} :
    ∀ c ∈ natToDigits n, isSpace c = false := by
  intro c hc
  obtain ⟨d, hd, rfl⟩ := natToDigits_mem hc
  exact (digitChar_spec d hd).2.1

theorem pyIntChars_natToDigits (n : Nat) :
    pyIntChars (natToDigits n) = some (n : Int) := by
  unfold pyIntChars
  rw [pyStrip_eq_self natToDigits_not_space]
  cases hh : natToDigits n with
  | nil => exact absurd hh (natToDigitsAux_ne_nil (n + 1) n (by omega))
  | cons c cs =>
    have hc : c ∈ natToDigits n := by rw [hh]; exact List.mem_cons_self c cs
    obtain ⟨d, hd, rfl⟩ := natToDigits_mem hc
    have hspec := digitChar_spec d hd
    simp only [pyIntCore]
    rw [if_neg hspec.2.2.1, if_neg hspec.2.2.2]
    rw [← hh, digitsVal_natToDigits]
    rfl

theorem pyIntChars_pyStrInt (i : Int) :
    pyIntChars (pyStrInt i).data = some i := by
  unfold pyStrInt
  split
  · next hneg =>
    show pyIntChars ('-' :: natToDigits i.natAbs) = some i
    unfold pyIntChars
    rw [pyStrip_eq_self (by
      intro c hc
      rcases List.mem_cons.mp hc with rfl | hc
      · decide
      · exact natToDigits_not_space c hc)]
    simp only [pyIntCore]
    rw [if_pos trivial]
    rw [digitsVal_natToDigits]
    show some (-(i.natAbs : Int)) = some i
    congr 1
    omega
  · next hneg =>
    show pyIntChars (natToDigits i.toNat) = some i
    rw [pyIntChars_natToDigits]
    congr 1
    omega

theorem startswith_append (b t : String) : startswith b (b ++ t) = true := by
  unfold startswith
  rw [String.data_append]
  exact List.isPrefixOf_iff_prefix.mpr (List.prefix_append b.data t.data)

theorem parse_suffix_append {b : String} (hb : b.data ≠ []) (i : Int) :
    parse_suffix b (b ++ pyStrInt i) = some i := by
  unfold parse_suffix
  rw [if_neg (by simpa [List.isEmpty_iff] using hb)]
  rw [String.data_append, List.drop_left]
  exact pyIntChars_pyStrInt i

theorem parseAll_eq_none {b x : String} {l : List String} (hx : x ∈ l)
    (hpx : parse_suffix b x = none) : parseAll b l = none := by
  induction l with
  | nil => exact absurd hx (List.not_mem_nil x)
  | cons n rest ih =>
    rcases List.mem_cons.mp hx with rfl | hx
    · simp [parseAll, hpx]
    · simp only [parseAll, ih hx]
      cases parse_suffix b n <;> rfl

theorem parseAll_mem {b : String} {l : List String} {ns : List Int}
    (h : parseAll b l = some ns) {x : String} (hx : x ∈ l) :
    ∃ v, parse_suffix b x = some v ∧ v ∈ ns := by
  induction l generalizing ns with
  | nil => exact absurd hx (List.not_mem_nil x)
  | cons n rest ih =>
    simp only [parseAll] at h
    cases hps : parse_suffix b n with
    | none => rw [hps] at h; exact absurd h (by simp)
    | some v =>
      rw [hps] at h
      cases hrest : parseAll b rest with
      | none => rw [hrest] at h; exact absurd h (by simp)
      | some vs =>
        rw [hrest] at h
        simp only [Option.some.injEq] at h
        subst h
        rcases List.mem_cons.mp hx with rfl | hx
        · exact ⟨v, hps, List.mem_cons_self v vs⟩
        · obtain ⟨w, hw, hwm⟩ := ih hrest hx
          exact ⟨w, hw, List.mem_cons_of_mem v hwm⟩

theorem parseAll_map {b : String} (hb : b.data ≠ []) (is : List Int) :
    parseAll b (is.map (fun i => b ++ pyStrInt i)) = some is := by
  induction is with
  | nil => rfl
  | cons i rest ih =>
    simp only [List.map_cons, parseAll, parse_suffix_append hb, ih]

theorem le_foldl_max_init (xs : List Int) (x : Int) : x ≤ xs.foldl max x := by
  induction xs generalizing x with
  | nil => exact le_refl x
  | cons y ys ih =>
    exact le_trans (le_max_left x y) (ih (max x y))

theorem le_foldl_max_mem {xs : List Int} {v : Int} (h : v ∈ xs) (x : Int) :
    v ≤ xs.foldl max x := by
  induction xs generalizing x with
  | nil => exact absurd h (List.not_mem_nil v)
  | cons y ys ih =>
    rcases List.mem_cons.mp h with rfl | h
    · exact le_trans (le_max_right x v) (le_foldl_max_init ys (max x v))
    · exact ih h (max x y)

theorem mem_le_listMax {l : List Int} {v : Int} (h : v ∈ l) : v ≤ listMax l := by
  cases l with
  | nil => exact absurd h (List.not_mem_nil v)
  | cons x xs =>
    rcases List.mem_cons.mp h with rfl | h
    · exact le_foldl_max_init xs v
    · exact le_foldl_max_mem h x

theorem foldl_max_of_le (xs : List Int) (x : Int) (h : ∀ v ∈ xs, v ≤ x) :
    xs.foldl max x = x := by
  induction xs with
  | nil => rfl
  | cons y ys ih =>
    have hy : max x y = x := max_eq_left (h y (List.mem_cons_self y ys))
    show List.foldl max (max x y) ys = x
    rw [hy]
    exact ih (fun v hv => h v (List.mem_cons_of_mem y hv))

theorem listMax_cons_of_le {x : Int} {xs : List Int} (h : ∀ v ∈ xs, v ≤ x) :
    listMax (x :: xs) = x :=
  foldl_max_of_le xs x h

theorem new_names_zero (b : String) : new_names b 0 = [] := rfl

theorem new_names_succ (b : String) (j : Nat) :
    new_names b (j + 1) = (b ++ pyStrInt (Int.ofNat j)) :: new_names b j := by
  unfold new_names
  rw [List.range_succ]
  simp

theorem mem_new_names {b : String} {j : Nat} {x : String}
    (h : x ∈ new_names b j) : ∃ i, i < j ∧ x = b ++ pyStrInt (Int.ofNat i) := by
  unfold new_names at h
  simp only [List.mem_map, List.mem_reverse, List.mem_range] at h
  obtain ⟨i, hi, rfl⟩ := h
  exact ⟨i, hi, rfl⟩

theorem filter_new_names (b : String) (R₀ : List String) (j : Nat)
    (h₀ : ∀ x ∈ R₀, startswith b x = false) :
    (new_names b j ++ R₀).filter (fun n => startswith b n) = new_names b j := by
  rw [List.filter_append]
  have h1 : (new_names b j).filter (fun n => startswith b n) = new_names b j := by
    apply List.filter_eq_self.mpr
    intro a ha
    obtain ⟨i, _, rfl⟩ := mem_new_names ha
    exact startswith_append b _
  have h2 : R₀.filter (fun n => startswith b n) = [] := by
    apply List.filter_eq_nil_iff.mpr
    intro a ha
    simp [h₀ a ha]
  rw [h1, h2, List.append_nil]

theorem new_names_eq_map (b : String) (j : Nat) :
    new_names b j =
      ((List.range j).reverse.map Int.ofNat).map (fun i => b ++ pyStrInt i) := by
  unfold new_names
  rw [List.map_map]
  rfl

theorem parseAll_new_names {b : String} (hb : b.data ≠ []) (j : Nat) :
    parseAll b (new_names b j) = some ((List.range j).reverse.map Int.ofNat) := by
  rw [new_names_eq_map]
  exact parseAll_map hb _

theorem listMax_range_reverse (j : Nat) :
    listMax ((List.range (j + 1)).reverse.map Int.ofNat) = Int.ofNat j := by
  rw [List.range_succ]
  simp only [List.reverse_append, List.reverse_singleton, List.singleton_append,
    List.map_cons]
  apply listMax_cons_of_le
  intro v hv
  simp only [List.mem_map, List.mem_reverse, List.mem_range] at hv
  obtain ⟨i, hi, rfl⟩ := hv
  exact Int.ofNat_le.mpr (by omega)

theorem next_on_new_names {b : String} (hb : b.data ≠ []) (R₀ : List String)
    (h₀ : ∀ x ∈ R₀, startswith b x = false) (j : Nat) :
    _next_blueprint_name b (new_names b j ++ R₀) =
      .ok (b ++ pyStrInt (Int.ofNat j)) := by
  unfold _next_blueprint_name
  rw [filter_new_names b R₀ j h₀]
  cases j with
  | zero => rfl
  | succ k =>
    rw [new_names_succ]
    have hp : parseAll b ((b ++ pyStrInt (Int.ofNat k)) :: new_names b k) =
        some ((List.range (k + 1)).reverse.map Int.ofNat) := by
      rw [← new_names_succ]
      exact parseAll_new_names hb (k + 1)
    simp only [hp, listMax_range_reverse]
    rfl

theorem iterate_allocate_new_names {b : String} (hb : b.data ≠ [])
    (R₀ : List String) (h₀ : ∀ x ∈ R₀, startswith b x = false) (k : Nat) :
    ∀ j, iterate_allocate b k (new_names b j ++ R₀) =
      .ok (new_names b (j + k) ++ R₀) := by
  induction k with
  | zero => intro j; rfl
  | succ k ih =>
    intro j
    simp only [iterate_allocate, next_on_new_names hb R₀ h₀ j]
    rw [← List.cons_append, ← new_names_succ]
    rw [ih (j + 1)]
    have harith : j + 1 + k = j + (k + 1) := by omega
    rw [harith]

theorem mem_no_instance_methods {V : Finset String} {v : String}
    (h : v ∈ no_instance_methods V) : v = "POST" := by
  unfold no_instance_methods at h
  exact Finset.mem_singleton.mp (Finset.mem_inter.mp h).2

theorem mem_possibly_empty_instance_methods {V : Finset String} {apm : Bool}
    {v : String} (h : v ∈ possibly_empty_instance_methods V apm) :
    v = "GET" ∨ v = "PATCH" ∨ v = "PUT" := by
  unfold possibly_empty_instance_methods at h
  split at h
  · have := (Finset.mem_inter.mp h).2
    simp only [Finset.mem_insert, Finset.mem_singleton] at this
    tauto
  · have := (Finset.mem_inter.mp h).2
    simp only [Finset.mem_singleton] at this
    tauto

theorem mem_instance_methods {V : Finset String} {v : String}
    (h : v ∈ instance_methods V) :
    v = "GET" ∨ v = "PATCH" ∨ v = "DELETE" ∨ v = "PUT" := by
  unfold instance_methods at h
  have := (Finset.mem_inter.mp h).2
  simp only [Finset.mem_insert, Finset.mem_singleton] at this
  tauto

theorem relation_entries_length (ce : String) (rels : List String) :
    (relation_entries ce rels).length = 2 * rels.length := by
  induction rels with
  | nil => rfl
  | cons r rest ih =>
    have hsplit : relation_entries ce (r :: rest) =
        relation_rules ce r ++ relation_entries ce rest := by
      simp [relation_entries, List.flatMap_cons]
    rw [hsplit, List.length_append, ih]
    simp only [relation_rules, List.length_cons, List.length_nil,
      List.length_cons]
    omega

theorem mem_relation_entries {ce : String} {rels : List String} {e : RouteEntry}
    (h : e ∈ relation_entries ce rels) :
    ∃ r ∈ rels, e ∈ relation_rules ce r := by
  unfold relation_entries at h
  exact List.mem_flatMap.mp h

theorem mem_relation_rules {ce r : String} {e : RouteEntry}
    (h : e ∈ relation_rules ce r) :
    e.verbs = {"GET"} ∧ is_relation_handler e.handlerRef = true ∧
      e.handlerRef = HandlerRef.relation r := by
  unfold relation_rules at h
  simp only [List.mem_cons, List.not_mem_nil, or_false] at h
  rcases h with rfl | rfl
  · exact ⟨rfl, rfl, rfl⟩
  · exact ⟨rfl, rfl, rfl⟩

/-- Claim C1, counterexample. The claim states that a verb outside
{POST, GET, PATCH, PUT, DELETE} makes registration fail with a
configuration error. In the code there is no such check: with
`methods = ['HEAD']` the blueprint is created successfully (no exception),
and the unsupported verb appears in no URL rule — every rule's method set
is empty. -/
theorem C1_unsupported_verb_counterexample :
    (create_api_blueprint
        ⟨"person", ["HEAD"], "/api", false, false, [], false, []⟩ []).1 =
      .ok ⟨"personapi0", "/api",
        [⟨"/person", ∅, .crud, .none⟩,
         ⟨"/person", ∅, .crud, .none⟩,
         ⟨"/person/<int:instid>", ∅, .crud, .int⟩,
         ⟨"/person/<string:instid>", ∅, .crud, .string⟩]⟩ := by
  decide

/-- Claim C1, amended: a verb outside the five supported verbs does not
make registration fail; it is silently dropped, in the sense that it is a
member of no emitted RouteEntry's verb set. -/
theorem C1_unsupported_verbs_silently_dropped (ce : String) (V : Finset String)
    (apm af : Bool) (rels : List String) (v : String)
    (hv : v ∉ ({"POST", "GET", "PATCH", "PUT", "DELETE"} : Finset String)) :
    ∀ e ∈ buildRules ce V apm af rels, v ∉ e.verbs := by
  simp only [Finset.mem_insert, Finset.mem_singleton, not_or] at hv
  obtain ⟨hpo, hg, hpa, hpu, hd⟩ := hv
  intro e he
  unfold buildRules at he
  rcases List.mem_append.mp he with he | he
  · rcases List.mem_append.mp he with he | he
    · simp only [List.mem_cons, List.not_mem_nil, or_false] at he
      rcases he with rfl | rfl | rfl | rfl
      · intro hin
        exact hpo (mem_no_instance_methods hin)
      · intro hin
        rcases mem_possibly_empty_instance_methods hin with rfl | rfl | rfl
        · exact hg rfl
        · exact hpa rfl
        · exact hpu rfl
      · intro hin
        rcases mem_instance_methods hin with rfl | rfl | rfl | rfl
        · exact hg rfl
        · exact hpa rfl
        · exact hd rfl
        · exact hpu rfl
      · intro hin
        rcases mem_instance_methods hin with rfl | rfl | rfl | rfl
        · exact hg rfl
        · exact hpa rfl
        · exact hd rfl
        · exact hpu rfl
    · obtain ⟨r, _, hr⟩ := mem_relation_entries he
      intro hin
      rw [(mem_relation_rules hr).1] at hin
      exact hg (Finset.mem_singleton.mp hin)
  · cases af with
    | false => exact absurd he (List.not_mem_nil e)
    | true =>
      simp only [if_true, List.mem_singleton] at he
      subst he
      intro hin
      exact hg (Finset.mem_singleton.mp hin)

/-- Witness for C1's amended theorem at a concrete input: the verb `HEAD`
is outside the supported set and appears in no rule of the route table
built for a GET-only-style configuration whose requested verb set is
exactly `HEAD`. -/
theorem C1_unsupported_verbs_silently_dropped_witness :
    ("HEAD" ∉ ({"POST", "GET", "PATCH", "PUT", "DELETE"} : Finset String)) ∧
      ∀ e ∈ buildRules "/person" {"HEAD"} false false [], "HEAD" ∉ e.verbs :=
  ⟨by decide,
   C1_unsupported_verbs_silently_dropped "/person" {"HEAD"} false false []
     "HEAD" (by decide)⟩

/-- Claim C2, counterexample. The claim states every RouteEntry has a
non-empty verb set and that the collection-only, mixed-arity and instance
entries are emitted only when their verb subset is non-empty. In the code
all four `add_url_rule` calls are unconditional: with `verbs = {GET}` and
`allowBulkPatch = false` the builder emits four entries (not three), and
the collection-only (POST) entry carries an empty verb set. -/
theorem C2_empty_verbset_counterexample :
    buildRules "/person" ({"GET"} : Finset String) false false [] =
      [⟨"/person", ∅, .crud, .none⟩,
       ⟨"/person", {"GET"}, .crud, .none⟩,
       ⟨"/person/<int:instid>", {"GET"}, .crud, .int⟩,
       ⟨"/person/<string:instid>", {"GET"}, .crud, .string⟩] := by
  decide

/-- Claim C2, amended: the collection-only, mixed-arity and
per-identifier-kind instance entries are emitted unconditionally — the
route table always holds 4 CRUD entries plus two entries per relation plus
one function-evaluation entry when enabled — and an entry whose verb
partition is empty is emitted with an empty verb set; the relation and
function-evaluation entries always carry the non-empty verb set {GET}. -/
theorem C2_route_entries_unconditional (ce : String) (V : Finset String)
    (apm af : Bool) (rels : List String) :
    (buildRules ce V apm af rels).length =
        4 + 2 * rels.length + (if af then 1 else 0) ∧
      ∀ e ∈ buildRules ce V apm af rels,
        e.handlerRef ≠ HandlerRef.crud → e.verbs = {"GET"} := by
  constructor
  · unfold buildRules
    rw [List.length_append, List.length_append, relation_entries_length]
    cases af <;> simp
  · intro e he hcrud
    unfold buildRules at he
    rcases List.mem_append.mp he with he | he
    · rcases List.mem_append.mp he with he | he
      · simp only [List.mem_cons, List.not_mem_nil, or_false] at he
        rcases he with rfl | rfl | rfl | rfl <;> exact absurd rfl hcrud
      · obtain ⟨r, _, hr⟩ := mem_relation_entries he
        exact (mem_relation_rules hr).1
    · cases af with
      | false => exact absurd he (List.not_mem_nil e)
      | true =>
        simp only [if_true, List.mem_singleton] at he
        subst he
        rfl

/-- Witness for C2's amended theorem at a concrete input. -/
theorem C2_route_entries_unconditional_witness :
    (buildRules "/person" {"GET"} false true ["articles"]).length =
        4 + 2 * (["articles"] : List String).length + (if true then 1 else 0) ∧
      eval_entry "/person" ∈ buildRules "/person" {"GET"} false true ["articles"] ∧
      HandlerRef.functionEval ≠ HandlerRef.crud ∧
      (eval_entry "/person").verbs = {"GET"} :=
  ⟨(C2_route_entries_unconditional "/person" {"GET"} false true ["articles"]).1,
   by decide, by decide,
   (C2_route_entries_unconditional "/person" {"GET"} false true ["articles"]).2
     (eval_entry "/person") (by decide) (by decide)⟩

/-- Claim C3, counterexample. The claim states the allocator returns the
name with the smallest non-negative unused suffix. With the registry
holding only `personapi1`, the name `personapi0` (suffix 0) is unused, yet
the allocator — which computes one plus the maximum existing suffix —
returns `personapi2`. -/
theorem C3_not_smallest_counterexample :
    _next_blueprint_name "personapi" ["personapi1"] = .ok "personapi2" ∧
      ("personapi" ++ pyStrInt 0 = "personapi0") ∧
      ("personapi0" : String) ∉ (["personapi1"] : List String) ∧
      ("personapi2" : String) ≠ "personapi0" := by
  decide

/-- Claim C3, amended: the allocator returns `basename + str(n)` with `n`
one plus the maximum parsed suffix over registry entries starting with
`basename` (0 when there is none) — this is its definition — and the
returned name is never already a member of the registry; but `n` is not in
general the smallest non-negative integer with that property. The theorem
proves the freshness part, which is what remains of the claim. -/
theorem C3_allocate_returns_fresh_name (basename : String)
    (registry : List String) (name : String)
    (h : _next_blueprint_name basename registry = .ok name) :
    name ∉ registry := by
  unfold _next_blueprint_name at h
  split at h
  · next hf =>
    simp only [Except.ok.injEq] at h
    subst h
    intro hmem
    have hsw : startswith basename (basename ++ pyStrInt 0) = true :=
      startswith_append basename _
    have : basename ++ pyStrInt 0 ∈
        registry.filter (fun n => startswith basename n) :=
      List.mem_filter.mpr ⟨hmem, hsw⟩
    rw [hf] at this
    exact absurd this (List.not_mem_nil _)
  · next e es hf =>
    split at h
    · exact absurd h (by simp)
    · next nums hp =>
      simp only [Except.ok.injEq] at h
      subst h
      have hb : basename.data ≠ [] := by
        obtain ⟨v, hv, _⟩ := parseAll_mem hp (List.mem_cons_self e es)
        intro hbe
        unfold parse_suffix at hv
        rw [if_pos (by simpa [List.isEmpty_iff] using hbe)] at hv
        exact absurd hv (by simp)
      intro hmem
      have hsw : startswith basename
          (basename ++ pyStrInt (listMax nums + 1)) = true :=
        startswith_append basename _
      have hmf : basename ++ pyStrInt (listMax nums + 1) ∈ e :: es := by
        rw [← hf]
        exact List.mem_filter.mpr ⟨hmem, hsw⟩
      obtain ⟨v, hv, hvm⟩ := parseAll_mem hp hmf
      rw [parse_suffix_append hb] at hv
      simp only [Option.some.injEq] at hv
      subst hv
      have := mem_le_listMax hvm
      omega

/-- Witness for C3's amended theorem, matching the specification's own
example: allocating against {personapi0, personapi1, personapi2} returns
personapi3, which is not a member of the registry. -/
theorem C3_allocate_returns_fresh_name_witness :
    _next_blueprint_name "personapi" ["personapi0", "personapi1", "personapi2"] =
        .ok "personapi3" ∧
      ("personapi3" : String) ∉
        (["personapi0", "personapi1", "personapi2"] : List String) :=
  ⟨by decide,
   C3_allocate_returns_fresh_name "personapi"
     ["personapi0", "personapi1", "personapi2"] "personapi3" (by decide)⟩

/-- Claim C4, confirmed: when the list of verbs requiring authentication is
non-empty and no authentication decision function is supplied, `create_api`
fails with the configuration error (`IllegalArgumentError`) and the name
registry is returned unchanged. The theorem holds for every registry,
including registries on which name allocation itself would raise — the
error is always the authentication error, never the allocator's, showing
the check happens before any name is allocated. -/
theorem C4_auth_precondition_checked_first (cfg : ApiConfig)
    (registry : List String)
    (h1 : cfg.authentication_required_for ≠ [])
    (h2 : cfg.authentication_function = false) :
    create_api cfg registry =
      (.error (.illegalArgumentError authentication_error_msg), registry) := by
  unfold create_api create_api_blueprint
  rw [if_pos ⟨by simpa [List.isEmpty_iff] using h1, h2⟩]

/-- Witness for C4 at a concrete input: `authRequiredForVerbs = [POST]`, no
decision function, over a registry that even holds a malformed entry. -/
theorem C4_auth_precondition_checked_first_witness :
    ((["POST"] : List String) ≠ []) ∧
      create_api ⟨"person", ["GET"], "/api", false, false, ["POST"], false, []⟩
          ["personapix"] =
        (.error (.illegalArgumentError authentication_error_msg),
         ["personapix"]) :=
  ⟨by decide,
   C4_auth_precondition_checked_first
     ⟨"person", ["GET"], "/api", false, false, ["POST"], false, []⟩
     ["personapix"] (by decide) rfl⟩

/-- Claim C5, confirmed: the verb partitioner computes exactly
`collectionOnlyVerbs = V ∩ {POST}`, `mixedArityVerbs = V ∩ {GET, PATCH,
PUT}` when bulk patch is allowed and `V ∩ {GET}` otherwise, and
`instanceOnlyVerbs = V ∩ {GET, PATCH, PUT, DELETE}` (the source lists the
last intersection in the order GET, PATCH, DELETE, PUT — the same set). -/
theorem C5_verb_partitioning (V : Finset String) (apm : Bool) :
    no_instance_methods V = V ∩ {"POST"} ∧
      possibly_empty_instance_methods V apm =
        (if apm then V ∩ {"GET", "PATCH", "PUT"} else V ∩ {"GET"}) ∧
      instance_methods V = V ∩ {"GET", "PATCH", "PUT", "DELETE"} := by
  refine ⟨rfl, rfl, ?_⟩
  have h : ({"GET", "PATCH", "DELETE", "PUT"} : Finset String) =
      {"GET", "PATCH", "PUT", "DELETE"} := by decide
  rw [instance_methods, h]

/-- Claim C6, confirmed: if some registry entry starts with the blueprint
base name (`collection_name + "api"`) but its remainder does not parse as a
decimal integer, then the registration call fails with `ValueError` (the
specification's NamingError) and the registry is returned unchanged — the
failed call writes nothing into it. The authentication hypothesis rules
out the earlier precondition error. -/
theorem C6_malformed_suffix_raises (cfg : ApiConfig) (registry : List String)
    (entry : String) (h1 : entry ∈ registry)
    (h2 : startswith (cfg.collection_name ++ "api") entry = true)
    (h3 : parse_suffix (cfg.collection_name ++ "api") entry = none)
    (h4 : cfg.authentication_required_for = [] ∨
      cfg.authentication_function = true) :
    create_api cfg registry = (.error .valueError, registry) := by
  have hnext : _next_blueprint_name (cfg.collection_name ++ "api") registry =
      .error .valueError := by
    unfold _next_blueprint_name
    have hmemf : entry ∈ registry.filter
        (fun n => startswith (cfg.collection_name ++ "api") n) :=
      List.mem_filter.mpr ⟨h1, h2⟩
    cases hf : registry.filter
        (fun n => startswith (cfg.collection_name ++ "api") n) with
    | nil =>
      rw [hf] at hmemf
      exact absurd hmemf (List.not_mem_nil entry)
    | cons e es =>
      rw [hf] at hmemf
      simp only [hf, parseAll_eq_none hmemf h3]
  unfold create_api create_api_blueprint
  rw [if_neg (by rcases h4 with h | h <;> simp [h])]
  simp only [hnext]

/-- Witness for C6 at a concrete input: the registry holds `personapix`,
whose remainder `x` after the base name `personapi` is not numeric. -/
theorem C6_malformed_suffix_raises_witness :
    (("personapix" : String) ∈ (["personapix"] : List String)) ∧
      startswith ("person" ++ "api") "personapix" = true ∧
      parse_suffix ("person" ++ "api") "personapix" = none ∧
      create_api ⟨"person", ["GET"], "/api", false, false, [], false, []⟩
          ["personapix"] =
        (.error .valueError, ["personapix"]) :=
  ⟨by decide, by decide, by decide,
   C6_malformed_suffix_raises
     ⟨"person", ["GET"], "/api", false, false, [], false, []⟩
     ["personapix"] "personapix" (by decide) (by decide) (by decide)
     (Or.inl rfl)⟩

/-- Claim C7, confirmed: the related-collection part of the route table is
exactly, in declared relation order, one GET-only entry per identifier kind
(int first, then string) per relation, with the pattern
`collectionPath + "/<converter:instid>/" + relationName + "/"` and the
relation handler; a descriptor with zero relations contributes zero entries
(the right-hand side is empty for `rels = []`) and is not an error. -/
theorem C7_relation_route_expansion (ce : String) (V : Finset String)
    (apm af : Bool) (rels : List String) :
    (buildRules ce V apm af rels).filter
        (fun e => is_relation_handler e.handlerRef) =
      rels.flatMap (fun relname =>
        [⟨ce ++ "/<int:instid>/" ++ relname ++ "/", {"GET"},
          .relation relname, .int⟩,
         ⟨ce ++ "/<string:instid>/" ++ relname ++ "/", {"GET"},
          .relation relname, .string⟩]) := by
  unfold buildRules
  rw [List.filter_append, List.filter_append]
  have h1 : ([⟨ce, no_instance_methods V, .crud, .none⟩,
      ⟨ce, possibly_empty_instance_methods V apm, .crud, .none⟩,
      ⟨ce ++ "/<int:instid>", instance_methods V, .crud, .int⟩,
      ⟨ce ++ "/<string:instid>", instance_methods V, .crud, .string⟩] :
        List RouteEntry).filter (fun e => is_relation_handler e.handlerRef) =
      [] := rfl
  have h2 : (relation_entries ce rels).filter
      (fun e => is_relation_handler e.handlerRef) = relation_entries ce rels :=
    List.filter_eq_self.mpr (fun e he => by
      obtain ⟨r, _, hr⟩ := mem_relation_entries he
      exact (mem_relation_rules hr).2.1)
  have h3 : ((if af then [eval_entry ce] else []) : List RouteEntry).filter
      (fun e => is_relation_handler e.handlerRef) = [] := by
    cases af <;> rfl
  rw [h1, h2, h3, List.nil_append, List.append_nil]
  rfl

/-- Claim C8, confirmed: enabling function evaluation appends exactly one
additional RouteEntry to the route table built without it — GET-only, at
the path `"/eval" + collectionPath`, bound to the distinct
function-evaluation handler rather than the per-resource CRUD handler. -/
theorem C8_function_eval_route (ce : String) (V : Finset String) (apm : Bool)
    (rels : List String) :
    buildRules ce V apm true rels =
      buildRules ce V apm false rels ++
        [⟨"/eval" ++ ce, {"GET"}, HandlerRef.functionEval, IdKind.none⟩] := by
  simp [buildRules, eval_entry]

/-- Claim C9, confirmed: starting from a registry holding no name that
starts with `personapi`, N allocations each immediately followed by
insertion of the returned name succeed and add exactly the names
`personapi0 … personapi(N-1)` (stacked most recent first on the original
registry): the new-name block satisfies membership exactly at
`personapi + str(i)` for `i < N`. -/
theorem C9_iterated_allocation (N : Nat) (R₀ : List String) (_hN : 1 ≤ N)
    (h₀ : ∀ x ∈ R₀, startswith "personapi" x = false) :
    iterate_allocate "personapi" N R₀ =
        .ok (new_names "personapi" N ++ R₀) ∧
      ∀ s, s ∈ new_names "personapi" N ↔
        ∃ i, i < N ∧ s = "personapi" ++ pyStrInt (Int.ofNat i) := by
  constructor
  · have h := iterate_allocate_new_names (b := "personapi") (by decide) R₀ h₀ N 0
    rw [new_names_zero] at h
    simpa using h
  · intro s
    constructor
    · exact mem_new_names
    · intro h
      obtain ⟨i, hi, hs⟩ := h
      subst hs
      unfold new_names
      simp only [List.mem_map, List.mem_reverse, List.mem_range]
      exact ⟨i, hi, rfl⟩

/-- Witness for C9 at N = 3 over the empty registry: the three allocations
produce personapi0, personapi1, personapi2. -/
theorem C9_iterated_allocation_witness :
    (1 ≤ 3) ∧
      iterate_allocate "personapi" 3 [] =
        .ok (new_names "personapi" 3 ++ []) ∧
      new_names "personapi" 3 = ["personapi2", "personapi1", "personapi0"] :=
  ⟨by decide,
   (C9_iterated_allocation 3 [] (by decide) (by intro x hx; cases hx)).1,
   by decide⟩

/-- Claim C10, confirmed (frame property): `create_api_blueprint` leaves
the blueprint-name registry unchanged — only `create_api`'s subsequent
`register_blueprint` step inserts the computed name — and therefore two
consecutive `create_api_blueprint` calls with the same configuration and no
intervening registration return blueprints bearing the same group name. -/
theorem C10_create_api_blueprint_frame (cfg : ApiConfig)
    (registry : List String) :
    (create_api_blueprint cfg registry).2 = registry ∧
      ∀ bp₁ bp₂, (create_api_blueprint cfg registry).1 = .ok bp₁ →
        (create_api_blueprint cfg
            ((create_api_blueprint cfg registry).2)).1 = .ok bp₂ →
        bp₁.name = bp₂.name := by
  have hframe : (create_api_blueprint cfg registry).2 = registry := by
    unfold create_api_blueprint
    split
    · rfl
    · split <;> rfl
  refine ⟨hframe, ?_⟩
  intro bp₁ bp₂ hcall1 hcall2
  rw [hframe] at hcall2
  rw [hcall1] at hcall2
  injection hcall2 with h
  rw [h]

/-- Witness for C10 at a concrete input: a read-only person API created
twice against the same (empty) registry yields the same blueprint name. -/
theorem C10_create_api_blueprint_frame_witness :
    (create_api_blueprint
        ⟨"person", ["GET"], "/api", false, false, [], false, []⟩ []).2 = [] ∧
      ("personapi0" : String) = "personapi0" :=
  ⟨(C10_create_api_blueprint_frame
      ⟨"person", ["GET"], "/api", false, false, [], false, []⟩ []).1,
   (C10_create_api_blueprint_frame
      ⟨"person", ["GET"], "/api", false, false, [], false, []⟩ []).2
     ⟨"personapi0", "/api",
       buildRules "/person" ((["GET"].map pyUpper).toFinset) false false []⟩
     ⟨"personapi0", "/api",
       buildRules "/person" ((["GET"].map pyUpper).toFinset) false false []⟩
     (by decide) (by decide)⟩
